import Mathlib

/-!
Verification development for the client transport stack of geph4
(sosistab session layer, multiplex facade, client handshake, keepalive actor).

Each Rust component under scrutiny is shallowly embedded as an executable
Lean definition, translated from the source:
  - machine integers (u8, u64, usize) are modelled as Nat; the counters in
    question (seqnos, frame numbers, run numbers, shard counts) never rely
    on wrap-around in the source, and where saturation or truncation does
    occur (saturating_sub, the u8 cast in loss_to_u8) it is modelled
    explicitly;
  - f64 values that are only multiplied by the exact power of two 256.0,
    compared, and truncated are modelled as rationals (these operations are
    exact in binary floating point for the range in question);
  - channels, timers and races are modelled by explicit outcome lists or
    completion-time-tagged values;
  - the external FEC codec and the crypto layer (modules fec.rs, crypt.rs,
    msg.rs, which are outside the sources in scope) are abstracted as
    parameters or oracles, constrained only by the contract stated in the
    specification.
-/

namespace Geph4

/-! ### loss_to_u8 (session.rs)

The Rust source:
```
fn loss_to_u8(loss: f64) → u8 {
    let loss = loss * 256.0;
    if loss > 254.0 {
        return 255;
    }
    loss as u8
}
```
Multiplication of an f64 by 256.0 is exact (it only shifts the exponent),
and the comparison and the saturating-truncating `as u8` cast are exact,
so for an input that is a representable rational the whole function is
faithfully modelled over the rationals. The `as u8` cast truncates toward
zero and saturates into the interval 0..255.
-/

def loss_to_u8 (loss : ℚ) : ℕ :=
  let l := loss * 256
  if l > 254 then 255
  else min 255 (Int.toNat ⌊l⌋)

/-- Modelled from the specification words: the byte-wise loss is
min(255, floor(loss × 256)). This is the comparison definition for the
refinement claim C3, not translated from the source. -/
def spec_loss_to_u8 (loss : ℚ) : ℕ :=
  min 255 (Int.toNat ⌊loss * 256⌋)

/-! ### ReplayFilter (session.rs)

The Rust source:
```
struct ReplayFilter {
    top_seqno: u64,
    bottom_seqno: u64,
    seen_seqno: HashSet<u64>,
}

fn add(&mut self, seqno: u64) → bool {
    if seqno < self.bottom_seqno {
        return false;
    }
    if self.seen_seqno.contains(&seqno) {
        return false;
    }
    self.top_seqno = seqno;
    while self.top_seqno - self.bottom_seqno > 10000 {
        self.seen_seqno.remove(&self.bottom_seqno);
        self.bottom_seqno += 1;
    }
    true
}
```
Note that the source never inserts into `seen_seqno`. The u64 subtraction
in the loop guard only runs with `top_seqno ≥ bottom_seqno` (top is set to
a seqno that passed the `seqno < bottom_seqno` guard), so Nat subtraction
is faithful.
-/

structure ReplayFilter where
  top_seqno : ℕ
  bottom_seqno : ℕ
  seen_seqno : Finset ℕ
deriving DecidableEq

def ReplayFilter.new (start : ℕ) : ReplayFilter :=
  { top_seqno := start, bottom_seqno := start, seen_seqno := ∅ }

/-- The `while self.top_seqno - self.bottom_seqno > 10000` eviction loop of
`ReplayFilter::add`, returning the final bottom seqno and seen set. -/
def rpEvict (top bottom : ℕ) (seen : Finset ℕ) : ℕ × Finset ℕ :=
  if top - bottom > 10000 then
    rpEvict top (bottom + 1) (seen.erase bottom)
  else (bottom, seen)
termination_by top - bottom
decreasing_by omega

def ReplayFilter.add (f : ReplayFilter) (seqno : ℕ) : ReplayFilter × Bool :=
  if seqno < f.bottom_seqno then (f, false)
  else if seqno ∈ f.seen_seqno then (f, false)
  else
    let p := rpEvict seqno f.bottom_seqno f.seen_seqno
    ({ top_seqno := seqno, bottom_seqno := p.1, seen_seqno := p.2 }, true)

/-- The state of a replay filter created with `ReplayFilter::new(start)`
after a sequence of `add` calls. -/
def rpRun (start : ℕ) (adds : List ℕ) : ReplayFilter :=
  adds.foldl (fun f s => (f.add s).1) (ReplayFilter.new start)

lemma rpEvict_bottom_le (top : ℕ) : ∀ (bottom : ℕ) (seen : Finset ℕ), bottom ≤ top →
    bottom ≤ (rpEvict top bottom seen).1 ∧
    (rpEvict top bottom seen).1 ≤ top ∧
    top - (rpEvict top bottom seen).1 ≤ 10000 := by
  refine rpEvict.induct top (motive := fun bottom seen =>
      bottom ≤ top →
      bottom ≤ (rpEvict top bottom seen).1 ∧
      (rpEvict top bottom seen).1 ≤ top ∧
      top - (rpEvict top bottom seen).1 ≤ 10000) ?_ ?_
  · intro bottom seen hgt ih _
    rw [rpEvict, if_pos hgt]
    have h2 := ih (by omega)
    exact ⟨by omega, h2.2.1, h2.2.2⟩
  · intro bottom seen hgt h
    rw [rpEvict, if_neg hgt]
    exact ⟨le_refl _, h, by omega⟩

lemma rpEvict_seen_empty (top : ℕ) : ∀ (bottom : ℕ) (seen : Finset ℕ), seen = ∅ →
    (rpEvict top bottom seen).2 = ∅ := by
  refine rpEvict.induct top (motive := fun bottom seen =>
      seen = ∅ → (rpEvict top bottom seen).2 = ∅) ?_ ?_
  · intro bottom seen hgt ih hs
    rw [rpEvict, if_pos hgt]
    exact ih (by simp [hs])
  · intro bottom seen hgt hs
    rw [rpEvict, if_neg hgt]
    exact hs

/-- Invariant carried by every reachable replay-filter state. -/
def rpInv (f : ReplayFilter) : Prop :=
  f.bottom_seqno ≤ f.top_seqno ∧
  f.top_seqno - f.bottom_seqno ≤ 10000 ∧
  f.seen_seqno = ∅

lemma rpInv_new (start : ℕ) : rpInv (ReplayFilter.new start) := by
  refine ⟨le_refl _, by simp [ReplayFilter.new], rfl⟩

lemma rpInv_add {f : ReplayFilter} (hf : rpInv f) (s : ℕ) : rpInv ((f.add s).1) := by
  rcases hf with ⟨h1, h2, h3⟩
  unfold ReplayFilter.add
  by_cases hlt : s < f.bottom_seqno
  · rw [if_pos hlt]; exact ⟨h1, h2, h3⟩
  · rw [if_neg hlt]
    by_cases hmem : s ∈ f.seen_seqno
    · rw [if_pos hmem]; exact ⟨h1, h2, h3⟩
    · rw [if_neg hmem]
      have hble : f.bottom_seqno ≤ s := not_lt.mp hlt
      have he := rpEvict_bottom_le s f.bottom_seqno f.seen_seqno hble
      refine ⟨he.2.1, he.2.2, ?_⟩
      exact rpEvict_seen_empty s f.bottom_seqno f.seen_seqno h3

lemma rpInv_run (start : ℕ) (adds : List ℕ) : rpInv (rpRun start adds) := by
  have key : ∀ (l : List ℕ) (f : ReplayFilter), rpInv f →
      rpInv (l.foldl (fun g s => (g.add s).1) f) := by
    intro l
    induction l with
    | nil => intro f hf; exact hf
    | cons x xs ih => intro f hf; exact ih _ (rpInv_add hf x)
  exact key adds _ (rpInv_new start)

/-- C1: the replay filter admits the same seqno twice. The source never
inserts into `seen_seqno`, so the membership check can never reject a
repeat. Starting from `ReplayFilter::new(0)`, `add(1)` returns true, and a
second `add(1)` returns true again, contradicting the claim (and the doc
comment of the struct, which promises that repeats are rejected). -/
theorem replayFilter_add_readmits_duplicate :
    ((ReplayFilter.new 0).add 1).2 = true ∧
    ((((ReplayFilter.new 0).add 1).1).add 1).2 = true ∧
    ((((ReplayFilter.new 0).add 1).1).add 1).1.seen_seqno = ∅ := by
  have h1 : rpEvict 1 0 (∅ : Finset ℕ) = (0, ∅) := by
    rw [rpEvict]; norm_num
  refine ⟨?_, ?_, ?_⟩ <;>
    simp [ReplayFilter.add, ReplayFilter.new, h1]

/-- C4 (amended): after any sequence of `add` calls starting from
`ReplayFilter::new(start)`, the window invariants hold — the window is at
most 10000 wide, bottom never exceeds top, every element of the seen set
lies inside the window (the set is in fact always empty, because the source
never inserts) — and any seqno below the bottom of the window is rejected.
The monotonicity conjunct of the original claim is dropped: `add` sets
`top_seqno` to the new seqno unconditionally, so top can decrease. -/
theorem replayFilter_window_invariants (start : ℕ) (adds : List ℕ) (s : ℕ) :
    (rpRun start adds).bottom_seqno ≤ (rpRun start adds).top_seqno ∧
    (rpRun start adds).top_seqno - (rpRun start adds).bottom_seqno ≤ 10000 ∧
    (∀ x ∈ (rpRun start adds).seen_seqno,
      (rpRun start adds).bottom_seqno ≤ x ∧ x ≤ (rpRun start adds).top_seqno) ∧
    (s < (rpRun start adds).bottom_seqno → ((rpRun start adds).add s).2 = false) := by
  have h := rpInv_run start adds
  rcases h with ⟨h1, h2, h3⟩
  refine ⟨h1, h2, ?_, ?_⟩
  · intro x hx
    rw [h3] at hx
    exact absurd hx (Finset.not_mem_empty x)
  · intro hs
    unfold ReplayFilter.add
    rw [if_pos hs]

theorem replayFilter_window_invariants_witness :
    ((rpRun 50 []).add 3).2 = false :=
  (replayFilter_window_invariants 50 [] 3).2.2.2 (by decide)

/-- C4 counterexample: `top_seqno` is not monotone across calls. After
`new(0)` and `add(2)` the top is 2; the subsequent `add(1)` is admitted
(returns true) and lowers the top to 1. -/
theorem replayFilter_top_decreases_cex :
    (rpRun 0 [2]).top_seqno = 2 ∧
    ((rpRun 0 [2]).add 1).2 = true ∧
    ((rpRun 0 [2]).add 1).1.top_seqno = 1 := by
  have h2 : rpEvict 2 0 (∅ : Finset ℕ) = (0, ∅) := by
    rw [rpEvict]; norm_num
  have h1 : rpEvict 1 0 (∅ : Finset ℕ) = (0, ∅) := by
    rw [rpEvict]; norm_num
  refine ⟨?_, ?_, ?_⟩ <;>
    simp [rpRun, ReplayFilter.add, ReplayFilter.new, h1, h2]

/-- C3 counterexample: at loss = 509/512 (a dyadic rational, hence exactly
representable as an f64), loss × 256 = 254.5, the source returns 255, but
min(255, floor(loss × 256)) = 254. -/
theorem loss_to_u8_gap_cex :
    loss_to_u8 (509 / 512) = 255 ∧
    spec_loss_to_u8 (509 / 512) = 254 ∧
    (0 : ℚ) ≤ 509 / 512 ∧ (509 : ℚ) / 512 ≤ 1 := by
  refine ⟨?_, ?_, by norm_num, by norm_num⟩
  · rw [loss_to_u8]
    norm_num
  · rw [spec_loss_to_u8]
    have hfl : ⌊(509 : ℚ) / 512 * 256⌋ = 254 := by
      rw [Int.floor_eq_iff]
      constructor <;> norm_num
    rw [hfl]
    rfl

/-- C3 (amended): for loss in the unit interval, the byte-wise loss agrees
with min(255, floor(loss × 256)) everywhere except on the open band where
254 < loss × 256 < 255; on that band the source rounds up to 255 while the
specification formula gives 254. -/
theorem loss_to_u8_spec_comparison (loss : ℚ) (h0 : 0 ≤ loss) (h1 : loss ≤ 1) :
    (¬ (254 < loss * 256 ∧ loss * 256 < 255) →
      loss_to_u8 loss = spec_loss_to_u8 loss) ∧
    (254 < loss * 256 → loss * 256 < 255 →
      loss_to_u8 loss = 255 ∧ spec_loss_to_u8 loss = 254) := by
  constructor
  · intro hnot
    rw [loss_to_u8, spec_loss_to_u8]
    by_cases hgt : loss * 256 > 254
    · have h255 : (255 : ℚ) ≤ loss * 256 := by
        rcases not_and.mp hnot hgt with h
        push_neg at h
        exact h
      rw [if_pos hgt]
      have hfl : (255 : ℤ) ≤ ⌊loss * 256⌋ := by
        exact Int.le_floor.mpr (by exact_mod_cast h255)
      omega
    · rw [if_neg hgt]
  · intro hlo hhi
    rw [loss_to_u8, spec_loss_to_u8]
    rw [if_pos hlo]
    have hfl : ⌊loss * 256⌋ = 254 := by
      rw [Int.floor_eq_iff]
      constructor
      · push_cast; linarith
      · push_cast; linarith
    rw [hfl]
    exact ⟨rfl, rfl⟩

theorem loss_to_u8_spec_comparison_witness :
    ((¬ ((254 : ℚ) < (1 / 2 : ℚ) * 256 ∧ (1 / 2 : ℚ) * 256 < 255) →
      loss_to_u8 (1 / 2) = spec_loss_to_u8 (1 / 2)) ∧
    ((254 : ℚ) < (1 / 2 : ℚ) * 256 → (1 / 2 : ℚ) * 256 < 255 →
      loss_to_u8 (1 / 2) = 255 ∧ spec_loss_to_u8 (1 / 2) = 254)) :=
  loss_to_u8_spec_comparison (1 / 2) (by norm_num) (by norm_num)

/-! ### Multiplex facade error mapping (mux.rs)

The Rust source:
```
fn to_ioerror<T: ...>(val: T) → std::io::Error {
    std::io::Error::new(std::io::ErrorKind::ConnectionReset, val)
}

pub async fn send_urel(&self, msg: Bytes) → std::io::Result<()> {
    self.urel_send.send(msg).await.map_err(to_ioerror)
}
pub async fn recv_urel(&self) → std::io::Result<Bytes> {
    self.urel_recv.recv().await.map_err(to_ioerror)
}
pub async fn open_conn(&self, additional: Option<String>) → std::io::Result<RelConn> {
    let (send, recv) = smol::channel::unbounded();
    self.conn_open.send((additional.clone(), send)).await.map_err(to_ioerror)?;
    if let Ok(rc) = recv.recv().await {
        return Ok(rc);
    }
    Err(std::io::Error::new(std::io::ErrorKind::TimedOut, "timeout"))
}
pub async fn accept_conn(&self) → std::io::Result<RelConn> {
    self.conn_accept.recv().await.map_err(to_ioerror)
}
```
A channel `send` fails exactly when the channel is closed; a channel `recv`
fails exactly when the channel is closed and drained. Each operation is
modelled as a function of the relevant channel outcome: a Bool for whether
a send hit a closed channel, an Option for what a recv produced (none =
channel closed). The payload types (Bytes, RelConn) are abstract.
-/

inductive IoErrorKind where
  | connectionReset
  | connectionRefused
  | timedOut
  | otherKind
deriving DecidableEq, Repr

structure IoError where
  kind : IoErrorKind
  msg : String
deriving DecidableEq, Repr

def to_ioerror (msg : String) : IoError :=
  { kind := IoErrorKind.connectionReset, msg := msg }

namespace Mux

def send_urel (sendClosed : Bool) : Except IoError Unit :=
  if sendClosed then Except.error (to_ioerror "channel closed") else Except.ok ()

def recv_urel (α : Type) (received : Option α) : Except IoError α :=
  match received with
  | some b => Except.ok b
  | none => Except.error (to_ioerror "channel closed")

def open_conn (α : Type) (openSendClosed : Bool) (reply : Option α) : Except IoError α :=
  if openSendClosed then Except.error (to_ioerror "channel closed")
  else
    match reply with
    | some rc => Except.ok rc
    | none => Except.error { kind := IoErrorKind.timedOut, msg := "timeout" }

def accept_conn (α : Type) (received : Option α) : Except IoError α :=
  match received with
  | some rc => Except.ok rc
  | none => Except.error (to_ioerror "channel closed")

/-- The error kind of an Except result, if it is an error. -/
def errKind {α : Type} : Except IoError α → Option IoErrorKind
  | Except.error e => some e.kind
  | Except.ok _ => none

end Mux

/-- C2 counterexample: when the reply channel of `open_conn` closes without
delivering a RelConn (the request channel itself being open), the surfaced
error has kind TimedOut, not ConnectionReset — so not every channel closure
observed by a Multiplex public operation maps to ConnectionReset. -/
theorem mux_open_conn_reply_close_timedout_cex :
    Mux.open_conn Unit false none =
      Except.error { kind := IoErrorKind.timedOut, msg := "timeout" } ∧
    IoErrorKind.timedOut ≠ IoErrorKind.connectionReset := by
  exact ⟨rfl, by decide⟩

/-- C2 (amended): closures of the four actor channels (urel_send,
urel_recv, conn_open, conn_accept) surface as ConnectionReset I/O errors
from send_urel, recv_urel, open_conn and accept_conn; the one exception is
the per-call reply channel of open_conn, whose closure without a value
surfaces as a TimedOut error. Successful channel interactions return Ok. -/
theorem mux_channel_closure_error_kinds (α : Type) (rc : α) (reply : Option α) :
    Mux.errKind (Mux.send_urel true) = some IoErrorKind.connectionReset ∧
    Mux.errKind (Mux.recv_urel α none) = some IoErrorKind.connectionReset ∧
    Mux.errKind (Mux.accept_conn α none) = some IoErrorKind.connectionReset ∧
    Mux.errKind (Mux.open_conn α true reply) = some IoErrorKind.connectionReset ∧
    Mux.errKind (Mux.open_conn α false none) = some IoErrorKind.timedOut ∧
    Mux.open_conn α false (some rc) = Except.ok rc ∧
    Mux.send_urel false = Except.ok () ∧
    Mux.recv_urel α (some rc) = Except.ok rc ∧
    Mux.accept_conn α (some rc) = Except.ok rc := by
  refine ⟨rfl, rfl, rfl, rfl, rfl, rfl, rfl, rfl, rfl⟩

/-! ### LossCalculator (session.rs)

The Rust source:
```
struct LossCalculator {
    last_top_seqno: u64,
    last_total_seqno: u64,
    last_time: Instant,
    loss_samples: VecDeque<f64>,
    median: f64,
}

fn update_params(&mut self, top_seqno: u64, total_seqno: u64) {
    let now = Instant::now();
    if total_seqno > self.last_total_seqno + 100
        && top_seqno > self.last_top_seqno + 100
        && now.saturating_duration_since(self.last_time).as_millis() > 2000
    {
        let delta_top = top_seqno.saturating_sub(self.last_top_seqno) as f64;
        let delta_total = total_seqno.saturating_sub(self.last_total_seqno) as f64;
        self.last_top_seqno = top_seqno;
        self.last_total_seqno = total_seqno;
        let loss_sample = 1.0 - delta_total / delta_top.max(delta_total);
        self.loss_samples.push_back(loss_sample);
        if self.loss_samples.len() > 64 {
            self.loss_samples.pop_front();
        }
        let median = {
            let mut lala: Vec<f64> = self.loss_samples.iter().cloned().collect();
            lala.sort_unstable_by(|a, b| a.partial_cmp(b).unwrap());
            lala[lala.len() / 4]
        };
        self.median = median;
        self.last_time = now;
    }
}
```
Time is modelled in milliseconds as a Nat supplied by the caller (the
`Instant::now()` of the call); `saturating_duration_since` is Nat
truncated subtraction. Sample values are modelled as rationals; the claim
under verification depends only on their ordering, not on f64 rounding.
The VecDeque is a list with its front at the head.
-/

structure LossCalculator where
  last_top_seqno : ℕ
  last_total_seqno : ℕ
  last_time : ℕ
  loss_samples : List ℚ
  median : ℚ
deriving DecidableEq

def LossCalculator.new (now : ℕ) : LossCalculator :=
  { last_top_seqno := 0, last_total_seqno := 0, last_time := now,
    loss_samples := [], median := 0 }

/-- The new loss sample: 1 − delta_total / max(delta_top, delta_total),
with the deltas computed by saturating subtraction. -/
def lcSample (lc : LossCalculator) (top_seqno total_seqno : ℕ) : ℚ :=
  1 - ((total_seqno - lc.last_total_seqno : ℕ) : ℚ) /
    max ((top_seqno - lc.last_top_seqno : ℕ) : ℚ)
        ((total_seqno - lc.last_total_seqno : ℕ) : ℚ)

/-- The `if self.loss_samples.len() > 64 { self.loss_samples.pop_front(); }`
step applied to the deque after the push. -/
def lcTrim (l : List ℚ) : List ℚ :=
  if 64 < l.length then l.tail else l

/-- The `lala[lala.len() / 4]` quartile of the sorted samples. -/
def lcMedian (samples : List ℚ) : ℚ :=
  (List.insertionSort (fun a b : ℚ => a ≤ b) samples).getD (samples.length / 4) 0

def LossCalculator.update_params (lc : LossCalculator)
    (top_seqno total_seqno now : ℕ) : LossCalculator :=
  if lc.last_total_seqno + 100 < total_seqno ∧
     lc.last_top_seqno + 100 < top_seqno ∧
     2000 < now - lc.last_time then
    { last_top_seqno := top_seqno, last_total_seqno := total_seqno,
      last_time := now,
      loss_samples := lcTrim (lc.loss_samples ++ [lcSample lc top_seqno total_seqno]),
      median := lcMedian (lcTrim (lc.loss_samples ++ [lcSample lc top_seqno total_seqno])) }
  else lc

/-- The loss calculator created at time t0 after a sequence of
`update_params(top_seqno, total_seqno)` calls, each tagged with the time
at which it happened. -/
def lcRun (t0 : ℕ) (calls : List (ℕ × ℕ × ℕ)) : LossCalculator :=
  calls.foldl (fun lc c => lc.update_params c.1 c.2.1 c.2.2) (LossCalculator.new t0)

/-- Invariant carried by every reachable loss-calculator state. -/
def lcInv (lc : LossCalculator) : Prop :=
  lc.loss_samples.length ≤ 64 ∧
  (lc.loss_samples ≠ [] →
    lc.median = (List.insertionSort (fun a b : ℚ => a ≤ b) lc.loss_samples).getD
      (lc.loss_samples.length / 4) 0)

lemma lcInv_new (t0 : ℕ) : lcInv (LossCalculator.new t0) := by
  constructor
  · simp [LossCalculator.new]
  · intro h
    exact absurd rfl h

lemma lcTrim_length_le {l : List ℚ} (h : l.length ≤ 65) : (lcTrim l).length ≤ 64 := by
  rw [lcTrim]
  split
  · next hgt => simp only [List.length_tail]; omega
  · next hle => omega

lemma lcInv_update {lc : LossCalculator} (h : lcInv lc) (a b c : ℕ) :
    lcInv (lc.update_params a b c) := by
  unfold LossCalculator.update_params
  by_cases hc : lc.last_total_seqno + 100 < b ∧ lc.last_top_seqno + 100 < a ∧
      2000 < c - lc.last_time
  · rw [if_pos hc]
    constructor
    · apply lcTrim_length_le
      have h1 := h.1
      simp only [List.length_append, List.length_cons, List.length_nil]
      omega
    · intro _
      rfl
  · rw [if_neg hc]
    exact h

lemma lcInv_run (t0 : ℕ) (calls : List (ℕ × ℕ × ℕ)) : lcInv (lcRun t0 calls) := by
  have key : ∀ (l : List (ℕ × ℕ × ℕ)) (lc : LossCalculator), lcInv lc →
      lcInv (l.foldl (fun g c => g.update_params c.1 c.2.1 c.2.2) lc) := by
    intro l
    induction l with
    | nil => intro lc hlc; exact hlc
    | cons x xs ih => intro lc hlc; exact ih _ (lcInv_update hlc x.1 x.2.1 x.2.2)
  exact key calls _ (lcInv_new t0)

/-- C6: in every reachable loss-calculator state with a non-empty sample
set, the stored `median` field is the element at index len/4 of the sorted
current samples (the first quartile), and the sample deque never holds
more than 64 samples. -/
theorem lossCalculator_quartile_invariant (t0 : ℕ) (calls : List (ℕ × ℕ × ℕ))
    (h : (lcRun t0 calls).loss_samples ≠ []) :
    (lcRun t0 calls).loss_samples.length ≤ 64 ∧
    (lcRun t0 calls).median =
      (List.insertionSort (fun a b : ℚ => a ≤ b) (lcRun t0 calls).loss_samples).getD
        ((lcRun t0 calls).loss_samples.length / 4) 0 := by
  have hi := lcInv_run t0 calls
  exact ⟨hi.1, hi.2 h⟩

theorem lossCalculator_quartile_invariant_witness :
    (lcRun 0 [(200, 200, 3000)]).loss_samples.length ≤ 64 ∧
    (lcRun 0 [(200, 200, 3000)]).median =
      (List.insertionSort (fun a b : ℚ => a ≤ b)
        (lcRun 0 [(200, 200, 3000)]).loss_samples).getD
        ((lcRun 0 [(200, 200, 3000)]).loss_samples.length / 4) 0 :=
  lossCalculator_quartile_invariant 0 [(200, 200, 3000)] (by decide)

/-! ### Keepalive exit selection (kalive.rs)

The Rust source:
```
let mut exits = ccache.get_exits().await.context("can't get exits")?;
if exits.is_empty() {
    anyhow::bail!("no exits found")
}
exits.sort_by(|a, b| {
    strsim::damerau_levenshtein(&a.hostname, &exit_host)
        .cmp(&strsim::damerau_levenshtein(&b.hostname, &exit_host))
});
let exit_host = exits[0].hostname.clone();
```
The Damerau–Levenshtein metric lives in the external strsim crate; it is
modelled as an abstract distance function `dl`. Rust `sort_by` is a stable
sort by the comparator; it is modelled by `List.insertionSort` on the
induced relation (a total preorder, which is all the minimality argument
needs). The connection attempt that follows the selection is abstracted as
a `connect` function so that the theorem can state that on an empty exit
list the body fails without the connection machinery being consulted. -/

structure ExitDescriptor where
  hostname : String
  sosistab_key : ℕ
deriving DecidableEq, Repr

def sortExitsByDistance (dl : String → String → ℕ) (exit_host : String)
    (exits : List ExitDescriptor) : List ExitDescriptor :=
  List.insertionSort
    (fun a b => dl a.hostname exit_host ≤ dl b.hostname exit_host) exits

def keepaliveSelectExit (dl : String → String → ℕ) (exit_host : String)
    (exits : List ExitDescriptor) : Option ExitDescriptor :=
  if exits.isEmpty then none
  else (sortExitsByDistance dl exit_host exits).head?

def keepaliveBodyExitPhase (dl : String → String → ℕ) (exit_host : String)
    (exits : List ExitDescriptor)
    (connect : ExitDescriptor → Except String ℕ) : Except String ℕ :=
  if exits.isEmpty then Except.error "no exits found"
  else
    match (sortExitsByDistance dl exit_host exits).head? with
    | some e => connect e
    | none => Except.error "no exits found"

lemma sortExits_perm (dl : String → String → ℕ) (exit_host : String)
    (exits : List ExitDescriptor) :
    (sortExitsByDistance dl exit_host exits).Perm exits := by
  rw [sortExitsByDistance]
  exact List.perm_insertionSort _ _

lemma sortExits_sorted (dl : String → String → ℕ) (exit_host : String)
    (exits : List ExitDescriptor) :
    List.Sorted (fun a b => dl a.hostname exit_host ≤ dl b.hostname exit_host)
      (sortExitsByDistance dl exit_host exits) := by
  rw [sortExitsByDistance]
  haveI : IsTotal ExitDescriptor
      (fun a b => dl a.hostname exit_host ≤ dl b.hostname exit_host) :=
    ⟨fun a b => Nat.le_total _ _⟩
  haveI : IsTrans ExitDescriptor
      (fun a b => dl a.hostname exit_host ≤ dl b.hostname exit_host) :=
    ⟨fun _ _ _ hab hbc => Nat.le_trans hab hbc⟩
  exact List.sorted_insertionSort _ _

/-- C9: for a non-empty exit list the exit picked by the keepalive body is
one at minimal distance (under the Damerau–Levenshtein metric, abstracted
as `dl`) from the requested exit_server, and the body proceeds to connect
with exactly that exit; for an empty exit list the body fails with the
"no exits found" error for every possible connection routine, i.e. before
attempting any connection. -/
theorem keepalive_exit_selection_minimal (dl : String → String → ℕ)
    (exit_host : String) (exits : List ExitDescriptor) :
    (exits = [] → ∀ connect,
      keepaliveBodyExitPhase dl exit_host exits connect =
        Except.error "no exits found") ∧
    (exits ≠ [] → ∃ e,
      keepaliveSelectExit dl exit_host exits = some e ∧
      e ∈ exits ∧
      (∀ x ∈ exits, dl e.hostname exit_host ≤ dl x.hostname exit_host) ∧
      (∀ connect, keepaliveBodyExitPhase dl exit_host exits connect = connect e)) := by
  constructor
  · intro he connect
    subst he
    rfl
  · intro hne
    have hperm := sortExits_perm dl exit_host exits
    have hsorted := sortExits_sorted dl exit_host exits
    have hne2 : sortExitsByDistance dl exit_host exits ≠ [] := by
      intro hempty
      rw [hempty] at hperm
      exact hne (List.Perm.nil_eq hperm).symm
    obtain ⟨e, rest, hcons⟩ := List.exists_cons_of_ne_nil hne2
    have hmem : e ∈ exits := by
      refine hperm.mem_iff.mp ?_
      rw [hcons]
      exact List.mem_cons_self e rest
    refine ⟨e, ?_, hmem, ?_, ?_⟩
    · rw [keepaliveSelectExit, if_neg (by simpa using hne), hcons]
      rfl
    · intro x hx
      have hx2 : x ∈ sortExitsByDistance dl exit_host exits := hperm.mem_iff.mpr hx
      rw [hcons] at hx2
      rcases List.mem_cons.mp hx2 with hxe | hxrest
      · rw [hxe]
      · have hs2 := hcons ▸ hsorted
        exact List.rel_of_sorted_cons hs2 x hxrest
    · intro connect
      rw [keepaliveBodyExitPhase, if_neg (by simpa using hne), hcons]
      rfl

theorem keepalive_exit_selection_minimal_witness :
    (∃ e, keepaliveSelectExit (fun a b => (a.length - b.length) + (b.length - a.length))
        "sg-sgp-test-01" [ExitDescriptor.mk "sg-sgp-x" 1, ExitDescriptor.mk "sg-sgp-test-01" 2]
        = some e ∧
      e ∈ [ExitDescriptor.mk "sg-sgp-x" 1, ExitDescriptor.mk "sg-sgp-test-01" 2] ∧
      (∀ x ∈ [ExitDescriptor.mk "sg-sgp-x" 1, ExitDescriptor.mk "sg-sgp-test-01" 2],
        (fun a b => (a.length - b.length) + (b.length - a.length)) e.hostname "sg-sgp-test-01" ≤
        (fun a b => (a.length - b.length) + (b.length - a.length)) x.hostname "sg-sgp-test-01") ∧
      (∀ connect, keepaliveBodyExitPhase
        (fun a b => (a.length - b.length) + (b.length - a.length)) "sg-sgp-test-01"
        [ExitDescriptor.mk "sg-sgp-x" 1, ExitDescriptor.mk "sg-sgp-test-01" 2] connect =
        connect e)) :=
  (keepalive_exit_selection_minimal
    (fun a b => (a.length - b.length) + (b.length - a.length)) "sg-sgp-test-01"
    [ExitDescriptor.mk "sg-sgp-x" 1, ExitDescriptor.mk "sg-sgp-test-01" 2]).2
    (by decide)

/-! ### RunDecoder (session.rs)

The Rust source:
```
struct RunDecoder {
    top_run: u64,
    bottom_run: u64,
    decoders: HashMap<u64, FrameDecoder>,
    total_count: u64,
    correct_count: u64,
    total_data_shards: u64,
    total_parity_shards: u64,
}

fn input(&mut self, run_no: u64, run_idx: u8, data_shards: u8, parity_shards: u8,
         bts: &[u8]) → Option<Vec<Bytes>> {
    if run_no >= self.bottom_run {
        if run_no > self.top_run {
            self.top_run = run_no;
            while self.top_run - self.bottom_run > 10 {
                if let Some(dec) = self.decoders.remove(&self.bottom_run) {
                    self.total_count += (dec.good_pkts() + dec.lost_pkts()) as u64;
                    self.correct_count += dec.good_pkts() as u64
                }
                self.bottom_run += 1;
            }
        }
        let decoder = self.decoders.entry(run_no)
            .or_insert_with(|| FrameDecoder::new(data_shards as usize, parity_shards as usize));
        if run_idx < data_shards { self.total_data_shards += 1 }
        else { self.total_parity_shards += 1 }
        if let Some(res) = decoder.decode(bts, run_idx as usize) { Some(res) } else { None }
    } else {
        None
    }
}
```
The FrameDecoder lives in the fec module, which is outside the sources in
scope. Modelled from the spec: the FEC sub-decoder is an abstract state
type with a constructor taking (data_shards, parity_shards), a state-
passing `decode(body, index)` that may emit the reassembled payload list,
and `good_pkts` / `lost_pkts` accessors (specification section 6). The
HashMap is modelled as a function to Option.
-/

structure FecImpl where
  D : Type
  newD : ℕ → ℕ → D
  decodeD : D → List ℕ → ℕ → D × Option (List (List ℕ))
  good_pkts : D → ℕ
  lost_pkts : D → ℕ

structure RunDecoder (F : FecImpl) where
  top_run : ℕ
  bottom_run : ℕ
  decoders : ℕ → Option F.D
  total_count : ℕ
  correct_count : ℕ
  total_data_shards : ℕ
  total_parity_shards : ℕ

def RunDecoder.init (F : FecImpl) : RunDecoder F :=
  { top_run := 0, bottom_run := 0, decoders := fun _ => none,
    total_count := 0, correct_count := 0,
    total_data_shards := 0, total_parity_shards := 0 }

/-- Result of the `while self.top_run - self.bottom_run > 10` retirement
loop of `RunDecoder::input`. -/
structure AdvanceResult (F : FecImpl) where
  bottom : ℕ
  decs : ℕ → Option F.D
  total : ℕ
  correct : ℕ

/-- Contribution of the `if let Some(dec) = self.decoders.remove(..)` body
to total_count: good_pkts + lost_pkts of the removed decoder, or 0 when
the run has no decoder. -/
def rdContribTotal (F : FecImpl) (decs : ℕ → Option F.D) (r : ℕ) : ℕ :=
  match decs r with
  | some d => F.good_pkts d + F.lost_pkts d
  | none => 0

/-- Contribution of the same step to correct_count: good_pkts of the
removed decoder, or 0 when the run has no decoder. -/
def rdContribGood (F : FecImpl) (decs : ℕ → Option F.D) (r : ℕ) : ℕ :=
  match decs r with
  | some d => F.good_pkts d
  | none => 0

/-- The retirement loop itself: evict the bottom run while the window is
wider than 10, accumulating the good/lost counts of evicted decoders. -/
def rdAdvance (F : FecImpl) (top : ℕ) (bottom : ℕ) (decs : ℕ → Option F.D)
    (total correct : ℕ) : AdvanceResult F :=
  if top - bottom > 10 then
    rdAdvance F top (bottom + 1) (fun k => if k = bottom then none else decs k)
      (total + rdContribTotal F decs bottom) (correct + rdContribGood F decs bottom)
  else { bottom := bottom, decs := decs, total := total, correct := correct }
termination_by top - bottom
decreasing_by omega

/-- The `entry(run_no).or_insert_with(|| FrameDecoder::new(..))` lookup. -/
def rdEntry (F : FecImpl) (decs : ℕ → Option F.D) (run_no ds ps : ℕ) : F.D :=
  match decs run_no with
  | some d => d
  | none => F.newD ds ps

def RunDecoder.input {F : FecImpl} (rd : RunDecoder F)
    (run_no run_idx data_shards parity_shards : ℕ) (bts : List ℕ) :
    RunDecoder F × Option (List (List ℕ)) :=
  if rd.bottom_run ≤ run_no then
    let a : AdvanceResult F :=
      if rd.top_run < run_no then
        rdAdvance F run_no rd.bottom_run rd.decoders rd.total_count rd.correct_count
      else
        { bottom := rd.bottom_run, decs := rd.decoders,
          total := rd.total_count, correct := rd.correct_count }
    let top := if rd.top_run < run_no then run_no else rd.top_run
    let dec0 := rdEntry F a.decs run_no data_shards parity_shards
    let step := F.decodeD dec0 bts run_idx
    ({ top_run := top, bottom_run := a.bottom,
       decoders := fun k => if k = run_no then some step.1 else a.decs k,
       total_count := a.total, correct_count := a.correct,
       total_data_shards :=
         if run_idx < data_shards then rd.total_data_shards + 1 else rd.total_data_shards,
       total_parity_shards :=
         if run_idx < data_shards then rd.total_parity_shards else rd.total_parity_shards + 1 },
     step.2)
  else (rd, none)

/-- The run decoder after a sequence of `input` calls starting from the
default state, each call supplying (run_no, run_idx, data_shards,
parity_shards, body). -/
def rdRun (F : FecImpl) (inputs : List (ℕ × ℕ × ℕ × ℕ × List ℕ)) : RunDecoder F :=
  inputs.foldl (fun rd i => (rd.input i.1 i.2.1 i.2.2.1 i.2.2.2.1 i.2.2.2.2).1)
    (RunDecoder.init F)

lemma rdAdvance_spec_aux (F : FecImpl) (top : ℕ) :
    ∀ (n bottom : ℕ) (decs : ℕ → Option F.D) (total correct : ℕ),
    top - bottom ≤ n → bottom ≤ top →
    bottom ≤ (rdAdvance F top bottom decs total correct).bottom ∧
    (rdAdvance F top bottom decs total correct).bottom ≤ top ∧
    top - (rdAdvance F top bottom decs total correct).bottom ≤ 10 ∧
    (rdAdvance F top bottom decs total correct).total =
      total + ∑ r ∈ Finset.Ico bottom (rdAdvance F top bottom decs total correct).bottom,
        rdContribTotal F decs r ∧
    (rdAdvance F top bottom decs total correct).correct =
      correct + ∑ r ∈ Finset.Ico bottom (rdAdvance F top bottom decs total correct).bottom,
        rdContribGood F decs r := by
  intro n
  induction n with
  | zero =>
    intro bottom decs total correct hn hb
    have hng : ¬ top - bottom > 10 := by omega
    rw [rdAdvance, if_neg hng]
    dsimp only
    refine ⟨le_refl _, hb, by omega, ?_, ?_⟩
    · rw [Finset.Ico_self, Finset.sum_empty]
      omega
    · rw [Finset.Ico_self, Finset.sum_empty]
      omega
  | succ n ih =>
    intro bottom decs total correct hn hb
    by_cases hgt : top - bottom > 10
    · rw [rdAdvance, if_pos hgt]
      have h2 := ih (bottom + 1) (fun k => if k = bottom then none else decs k)
        (total + rdContribTotal F decs bottom) (correct + rdContribGood F decs bottom)
        (by omega) (by omega)
      set res := rdAdvance F top (bottom + 1) (fun k => if k = bottom then none else decs k)
        (total + rdContribTotal F decs bottom) (correct + rdContribGood F decs bottom)
        with hres
      obtain ⟨hb1, hb2, hb3, ht, hc⟩ := h2
      have hlt : bottom < res.bottom := by omega
      have htot : ∑ r ∈ Finset.Ico (bottom + 1) res.bottom,
          rdContribTotal F (fun k => if k = bottom then none else decs k) r =
          ∑ r ∈ Finset.Ico (bottom + 1) res.bottom, rdContribTotal F decs r := by
        refine Finset.sum_congr rfl ?_
        intro r hrmem
        have hr : bottom + 1 ≤ r := (Finset.mem_Ico.mp hrmem).1
        rw [rdContribTotal, rdContribTotal, if_neg (by omega)]
      have hgood : ∑ r ∈ Finset.Ico (bottom + 1) res.bottom,
          rdContribGood F (fun k => if k = bottom then none else decs k) r =
          ∑ r ∈ Finset.Ico (bottom + 1) res.bottom, rdContribGood F decs r := by
        refine Finset.sum_congr rfl ?_
        intro r hrmem
        have hr : bottom + 1 ≤ r := (Finset.mem_Ico.mp hrmem).1
        rw [rdContribGood, rdContribGood, if_neg (by omega)]
      refine ⟨by omega, hb2, hb3, ?_, ?_⟩
      · rw [ht, htot, Finset.sum_eq_sum_Ico_succ_bot hlt]
        omega
      · rw [hc, hgood, Finset.sum_eq_sum_Ico_succ_bot hlt]
        omega
    · rw [rdAdvance, if_neg hgt]
      dsimp only
      refine ⟨le_refl _, hb, by omega, ?_, ?_⟩
      · rw [Finset.Ico_self, Finset.sum_empty]
        omega
      · rw [Finset.Ico_self, Finset.sum_empty]
        omega

lemma rdAdvance_spec (F : FecImpl) (top bottom : ℕ) (decs : ℕ → Option F.D)
    (total correct : ℕ) (hb : bottom ≤ top) :
    bottom ≤ (rdAdvance F top bottom decs total correct).bottom ∧
    (rdAdvance F top bottom decs total correct).bottom ≤ top ∧
    top - (rdAdvance F top bottom decs total correct).bottom ≤ 10 ∧
    (rdAdvance F top bottom decs total correct).total =
      total + ∑ r ∈ Finset.Ico bottom (rdAdvance F top bottom decs total correct).bottom,
        rdContribTotal F decs r ∧
    (rdAdvance F top bottom decs total correct).correct =
      correct + ∑ r ∈ Finset.Ico bottom (rdAdvance F top bottom decs total correct).bottom,
        rdContribGood F decs r :=
  rdAdvance_spec_aux F top (top - bottom) bottom decs total correct (le_refl _) hb

/-- Window invariant of the run decoder. -/
def rdInv {F : FecImpl} (rd : RunDecoder F) : Prop :=
  rd.bottom_run ≤ rd.top_run ∧ rd.top_run - rd.bottom_run ≤ 10

lemma rdInv_init (F : FecImpl) : rdInv (RunDecoder.init F) := by
  unfold rdInv RunDecoder.init
  simp

lemma rdInv_input {F : FecImpl} {rd : RunDecoder F} (h : rdInv rd)
    (run_no run_idx ds ps : ℕ) (bts : List ℕ) :
    rdInv ((rd.input run_no run_idx ds ps bts).1) := by
  obtain ⟨h1, h2⟩ := h
  unfold RunDecoder.input
  by_cases hge : rd.bottom_run ≤ run_no
  · rw [if_pos hge]
    by_cases htop : rd.top_run < run_no
    · have hadv := rdAdvance_spec F run_no rd.bottom_run rd.decoders rd.total_count
        rd.correct_count hge
      simp only [if_pos htop]
      exact ⟨hadv.2.1, hadv.2.2.1⟩
    · simp only [if_neg htop]
      exact ⟨h1, h2⟩
  · rw [if_neg hge]
    exact ⟨h1, h2⟩

lemma rdInv_run (F : FecImpl) (inputs : List (ℕ × ℕ × ℕ × ℕ × List ℕ)) :
    rdInv (rdRun F inputs) := by
  have key : ∀ (l : List (ℕ × ℕ × ℕ × ℕ × List ℕ)) (rd : RunDecoder F), rdInv rd →
      rdInv (l.foldl (fun g i => (g.input i.1 i.2.1 i.2.2.1 i.2.2.2.1 i.2.2.2.2).1) rd) := by
    intro l
    induction l with
    | nil => intro rd hrd; exact hrd
    | cons x xs ih => intro rd hrd; exact ih _ (rdInv_input hrd _ _ _ _ _)
  exact key inputs _ (rdInv_init F)

/-- C7: in every reachable run-decoder state the window is at most 10 runs
wide; an input whose run_no is below the bottom of the window returns None
and leaves the state untouched; and when an input advances the top of the
window, the retired runs contribute their good and good+lost packet counts
to the rolling correct_count and total_count, while the window bound is
re-established. The FEC sub-decoder is an arbitrary implementation F. -/
theorem runDecoder_window_invariants (F : FecImpl)
    (inputs : List (ℕ × ℕ × ℕ × ℕ × List ℕ))
    (rn ri ds ps : ℕ) (bts : List ℕ) :
    (rdRun F inputs).bottom_run ≤ (rdRun F inputs).top_run ∧
    (rdRun F inputs).top_run - (rdRun F inputs).bottom_run ≤ 10 ∧
    (rn < (rdRun F inputs).bottom_run →
      (rdRun F inputs).input rn ri ds ps bts = (rdRun F inputs, none)) ∧
    ((rdRun F inputs).top_run < rn →
      ((rdRun F inputs).input rn ri ds ps bts).1.total_count =
        (rdRun F inputs).total_count +
          ∑ r ∈ Finset.Ico (rdRun F inputs).bottom_run
            ((rdRun F inputs).input rn ri ds ps bts).1.bottom_run,
            rdContribTotal F (rdRun F inputs).decoders r ∧
      ((rdRun F inputs).input rn ri ds ps bts).1.correct_count =
        (rdRun F inputs).correct_count +
          ∑ r ∈ Finset.Ico (rdRun F inputs).bottom_run
            ((rdRun F inputs).input rn ri ds ps bts).1.bottom_run,
            rdContribGood F (rdRun F inputs).decoders r ∧
      ((rdRun F inputs).input rn ri ds ps bts).1.top_run -
        ((rdRun F inputs).input rn ri ds ps bts).1.bottom_run ≤ 10) := by
  obtain ⟨h1, h2⟩ := rdInv_run F inputs
  set st := rdRun F inputs with hst
  refine ⟨h1, h2, ?_, ?_⟩
  · intro hlt
    unfold RunDecoder.input
    rw [if_neg (by omega)]
  · intro htop
    have hge : st.bottom_run ≤ rn := by omega
    have hadv := rdAdvance_spec F rn st.bottom_run st.decoders st.total_count
      st.correct_count (by omega)
    unfold RunDecoder.input
    rw [if_pos hge]
    simp only [if_pos htop]
    exact ⟨hadv.2.2.2.1, hadv.2.2.2.2, by omega⟩

/-- A trivial FEC implementation used to instantiate the C7 theorem. -/
def trivialFec : FecImpl :=
  { D := Unit, newD := fun _ _ => (), decodeD := fun d _ _ => (d, none),
    good_pkts := fun _ => 0, lost_pkts := fun _ => 0 }

theorem runDecoder_window_invariants_witness :
    ((rdRun trivialFec []).input 1 0 1 0 []).1.total_count =
      (rdRun trivialFec []).total_count +
        ∑ r ∈ Finset.Ico (rdRun trivialFec []).bottom_run
          ((rdRun trivialFec []).input 1 0 1 0 []).1.bottom_run,
          rdContribTotal trivialFec (rdRun trivialFec []).decoders r ∧
    ((rdRun trivialFec []).input 1 0 1 0 []).1.correct_count =
      (rdRun trivialFec []).correct_count +
        ∑ r ∈ Finset.Ico (rdRun trivialFec []).bottom_run
          ((rdRun trivialFec []).input 1 0 1 0 []).1.bottom_run,
          rdContribGood trivialFec (rdRun trivialFec []).decoders r ∧
    ((rdRun trivialFec []).input 1 0 1 0 []).1.top_run -
      ((rdRun trivialFec []).input 1 0 1 0 []).1.bottom_run ≤ 10 :=
  (runDecoder_window_invariants trivialFec [] 1 0 1 0 []).2.2.2
    (by simp [rdRun, RunDecoder.init])

/-! ### Keepalive connection race (kalive.rs)

The Rust source of the direct branch (use_bridges == false):
```
async {
    Ok(infal(
        sosistab::connect(
            smol::net::resolve(format!("...", exit_info.hostname)).await
                .context("can't resolve hostname of exit")?[0],
            exit_info.sosistab_key,
        ).await,
    ).await)
}
.or(async {
    smol::Timer::after(Duration::from_secs(5)).await;
    bridge_sess_async.await
})
```
followed by
```
connected_sess_async.or(async {
    smol::Timer::after(Duration::from_secs(10)).await;
    anyhow::bail!("initial connection timeout after 10");
}).await
```
`infal` suspends forever on an Err, so a failing `sosistab::connect` makes
the direct future pend forever; a resolve failure, by contrast, propagates
with `?` and completes the direct future immediately with an error.

The model: a future is an optional (completion time, value) pair (none =
never completes); `or` returns whichever side completes first, the first
side winning ties (it is polled first); a timer delay adds to the
completion time. Resolve, connect and the bridge path are each given as a
(duration, result) pair. Error strings are abbreviated.
-/

def TFuture (α : Type) : Type := Option (ℕ × α)

def tfOr {α : Type} (a b : TFuture α) : TFuture α :=
  match a, b with
  | none, b => b
  | some x, none => some x
  | some x, some y => if x.1 ≤ y.1 then some x else some y

def tfDelay {α : Type} (d : ℕ) (f : TFuture α) : TFuture α :=
  Option.map (fun p => (p.1 + d, p.2)) f

/-- The direct branch: resolve, then connect wrapped in `infal`. -/
def directSessFuture (resolve : ℕ × Except String ℕ)
    (conn : ℕ × Except String ℕ) : TFuture (Except String ℕ) :=
  match resolve.2 with
  | Except.error e => some (resolve.1, Except.error ("resolve error: " ++ e))
  | Except.ok _ =>
    match conn.2 with
    | Except.ok s => some (resolve.1 + conn.1, Except.ok s)
    | Except.error _ => none

/-- `connected_sess_async`: bridges only, or direct raced against the
5-second-delayed bridge fallback. -/
def connectedSessFuture (use_bridges : Bool) (resolve conn bridge : ℕ × Except String ℕ) :
    TFuture (Except String ℕ) :=
  if use_bridges then some bridge
  else tfOr (directSessFuture resolve conn) (tfDelay 5 (some bridge))

/-- The session obtained by the keepalive body: the connected-session
future raced against the overall 10-second deadline. -/
def keepaliveSessionResult (use_bridges : Bool)
    (resolve conn bridge : ℕ × Except String ℕ) : ℕ × Except String ℕ :=
  (tfOr (connectedSessFuture use_bridges resolve conn bridge)
      (some (10, Except.error "initial connection timeout after 10"))).getD
    (10, Except.error "initial connection timeout after 10")

/-- C10 counterexample: with use_bridges = false, a hostname-resolution
failure at time 0 surfaces directly as the body error (it passes through
the ? operator before `infal` is reached), even though a bridge would have
succeeded at time 6 — so not every direct-branch failure is absorbed. -/
theorem keepalive_direct_resolve_error_surfaces_cex :
    keepaliveSessionResult false (0, Except.error "dns failure")
        (3, Except.error "unreachable") (1, Except.ok 7) =
      (0, Except.error "resolve error: dns failure") ∧
    (Except.error "resolve error: dns failure" : Except String ℕ) ≠
      Except.error "initial connection timeout after 10" ∧
    (Except.error "resolve error: dns failure" : Except String ℕ) ≠ Except.ok 7 := by
  refine ⟨rfl, ?_, ?_⟩
  · intro h
    have := Except.error.inj h
    simp at this
  · intro h
    exact Except.noConfusion h

/-- C10 (amended): with use_bridges = false and hostname resolution
succeeding, an error from the direct `sosistab::connect` never surfaces:
`infal` suspends the direct branch forever, so the body outcome is exactly
the bridge fallback outcome (session or bridge error, available at
5 + bridge-duration) when that beats the 10-second deadline, and the
"initial connection timeout after 10" error otherwise — independent of
the connect error value and timing. -/
theorem keepalive_direct_connect_error_never_surfaces
    (tr a tc tb : ℕ) (e : String) (br : Except String ℕ) :
    keepaliveSessionResult false (tr, Except.ok a) (tc, Except.error e) (tb, br) =
      if tb + 5 ≤ 10 then (tb + 5, br)
      else (10, Except.error "initial connection timeout after 10") := by
  by_cases h : tb + 5 ≤ 10 <;>
    simp [keepaliveSessionResult, connectedSessFuture, directSessFuture, tfOr, tfDelay, h]

theorem keepalive_direct_connect_error_never_surfaces_witness :
    keepaliveSessionResult false (0, Except.ok 1) (2, Except.error "refused")
        (1, Except.ok 7) =
      if 1 + 5 ≤ 10 then (1 + 5, Except.ok 7)
      else (10, Except.error "initial connection timeout after 10") :=
  keepalive_direct_connect_error_never_surfaces 0 1 2 1 "refused" (Except.ok 7)

/-! ### Client handshake loop (client.rs, connect_custom)

The Rust source (abridged to the loop under verification):
```
for timeout_factor in (0u32..).map(|x| 2u64.pow(x)) {
    // send hello (AEAD-sealed ClientHello); `?` returns send errors
    udp_socket.send_to(&init_hello, server_addr).await?;
    // wait for a reply, racing against a 2^attempt second timer that
    // produces an Err of kind TimedOut
    let res = udp_socket.recv_from(&mut buf).or(async { ...TimedOut... }).await;
    match res {
        Ok((n, _)) => {
            for possible_key in cookie.generate_s2c() {
                if let Some(HandshakeFrame::ServerHello { long_pk, eph_pk, resume_token })
                    = decrypter.pad_decrypt(buf) {
                    if long_pk.as_bytes() != pubkey.as_bytes() {
                        return Err(Error::new(ConnectionRefused, "bad pubkey"));
                    }
                    return init_session(...).await;
                }
            }
        }
        Err(err) => {
            if err.kind() == TimedOut { continue; }
            return Err(err);
        }
    }
}
```
The crypto layer (cookie keys, AEAD) lives in crypt.rs/msg.rs outside the
sources in scope; decryption is modelled as an oracle mapping a received
datagram to the ServerHello it decrypts to under some candidate S2C key,
if any. Public keys, datagrams and sessions are abstract naturals; a
successful handshake is represented by the resume token of the accepted
ServerHello. Each attempt consumes one element of an outcome list:
either the send failed, or the receive race ended in an error (the
synthetic timeout error included), or a datagram arrived. The model
returns the list of timeout values (in seconds) used by the successive
waits together with the final result (none = the outcome list was
exhausted with the loop still running). -/

structure ServerHelloData where
  long_pk : ℕ
  eph_pk : ℕ
  resume_token : ℕ
deriving DecidableEq, Repr

inductive AttemptOutcome where
  | sendFail (e : IoError)
  | recvFail (e : IoError)
  | received (dgram : ℕ)
deriving DecidableEq, Repr

def connect_custom (decrypt : ℕ → Option ServerHelloData) (pubkey : ℕ) :
    ℕ → List AttemptOutcome → List ℕ × Option (Except IoError ℕ)
  | _, [] => ([], none)
  | k, o :: rest =>
    match o with
    | AttemptOutcome.sendFail e => ([], some (Except.error e))
    | AttemptOutcome.recvFail e =>
      if e.kind = IoErrorKind.timedOut then
        ((2 ^ k) :: (connect_custom decrypt pubkey (k + 1) rest).1,
          (connect_custom decrypt pubkey (k + 1) rest).2)
      else ([2 ^ k], some (Except.error e))
    | AttemptOutcome.received d =>
      match decrypt d with
      | some sh =>
        if sh.long_pk ≠ pubkey then
          ([2 ^ k], some (Except.error
            { kind := IoErrorKind.connectionRefused, msg := "bad pubkey" }))
        else ([2 ^ k], some (Except.ok sh.resume_token))
      | none =>
        ((2 ^ k) :: (connect_custom decrypt pubkey (k + 1) rest).1,
          (connect_custom decrypt pubkey (k + 1) rest).2)

lemma connect_custom_trace_pow (decrypt : ℕ → Option ServerHelloData) (pubkey : ℕ) :
    ∀ (outcomes : List AttemptOutcome) (k i t : ℕ),
      (connect_custom decrypt pubkey k outcomes).1.get? i = some t → t = 2 ^ (k + i) := by
  intro outcomes
  induction outcomes with
  | nil =>
    intro k i t h
    simp [connect_custom] at h
  | cons o rest ih =>
    intro k i t h
    match o with
    | AttemptOutcome.sendFail e =>
      simp [connect_custom] at h
    | AttemptOutcome.recvFail e =>
      by_cases he : e.kind = IoErrorKind.timedOut
      · rw [connect_custom] at h
        simp only [he, if_pos] at h
        match i with
        | 0 =>
          simp at h
          rw [Nat.add_zero]
          omega
        | i + 1 =>
          simp only [List.get?_cons_succ] at h
          have := ih (k + 1) i t h
          rw [this]
          congr 1
          omega
      · rw [connect_custom] at h
        simp only [he, if_neg, if_false] at h
        match i with
        | 0 =>
          simp at h
          rw [Nat.add_zero]
          omega
        | i + 1 => simp at h
    | AttemptOutcome.received d =>
      match hd : decrypt d with
      | some sh =>
        rw [connect_custom] at h
        simp only [hd] at h
        by_cases hpk : sh.long_pk ≠ pubkey
        · simp only [if_pos hpk] at h
          match i with
          | 0 =>
            simp at h
            rw [Nat.add_zero]
            omega
          | i + 1 => simp at h
        · simp only [if_neg hpk] at h
          match i with
          | 0 =>
            simp at h
            rw [Nat.add_zero]
            omega
          | i + 1 => simp at h
      | none =>
        rw [connect_custom] at h
        simp only [hd] at h
        match i with
        | 0 =>
          simp at h
          rw [Nat.add_zero]
          omega
        | i + 1 =>
          simp only [List.get?_cons_succ] at h
          have := ih (k + 1) i t h
          rw [this]
          congr 1
          omega

/-- C8: in the client handshake loop, the wait of attempt i uses a timeout
of 2^i seconds (counting attempts from 0); a timed-out wait retransmits the
hello and moves to the next attempt with the doubled timeout; a wait ending
in any non-timeout I/O error, and a failing send, return that error to the
caller; and a decrypted ServerHello whose long_pk differs from the expected
server public key makes the call return a ConnectionRefused error with
message "bad pubkey", while a matching ServerHello completes the handshake. -/
theorem connect_custom_handshake_behavior (decrypt : ℕ → Option ServerHelloData)
    (pubkey : ℕ) (outcomes rest : List AttemptOutcome) (k i t : ℕ)
    (e : IoError) (d : ℕ) (sh : ServerHelloData) :
    ((connect_custom decrypt pubkey 0 outcomes).1.get? i = some t → t = 2 ^ i) ∧
    (e.kind = IoErrorKind.timedOut →
      connect_custom decrypt pubkey k (AttemptOutcome.recvFail e :: rest) =
        ((2 ^ k) :: (connect_custom decrypt pubkey (k + 1) rest).1,
          (connect_custom decrypt pubkey (k + 1) rest).2)) ∧
    (e.kind ≠ IoErrorKind.timedOut →
      connect_custom decrypt pubkey k (AttemptOutcome.recvFail e :: rest) =
        ([2 ^ k], some (Except.error e))) ∧
    (connect_custom decrypt pubkey k (AttemptOutcome.sendFail e :: rest) =
      ([], some (Except.error e))) ∧
    (decrypt d = some sh → sh.long_pk ≠ pubkey →
      connect_custom decrypt pubkey k (AttemptOutcome.received d :: rest) =
        ([2 ^ k], some (Except.error
          { kind := IoErrorKind.connectionRefused, msg := "bad pubkey" }))) ∧
    (decrypt d = some sh → sh.long_pk = pubkey →
      connect_custom decrypt pubkey k (AttemptOutcome.received d :: rest) =
        ([2 ^ k], some (Except.ok sh.resume_token))) := by
  refine ⟨?_, ?_, ?_, ?_, ?_, ?_⟩
  · intro h
    have := connect_custom_trace_pow decrypt pubkey outcomes 0 i t h
    simpa using this
  · intro he
    rw [connect_custom]
    simp [he]
  · intro he
    rw [connect_custom]
    simp [he]
  · rw [connect_custom]
  · intro hd hpk
    rw [connect_custom]
    simp [hd, hpk]
  · intro hd hpk
    rw [connect_custom]
    simp [hd, hpk]

/-- Concrete decryption oracle for the C8 witness: datagram 7 decrypts to a
ServerHello from public key 99 with resume token 5. -/
def witnessDecrypt : ℕ → Option ServerHelloData :=
  fun d => if d = 7 then some { long_pk := 99, eph_pk := 3, resume_token := 5 } else none

theorem connect_custom_handshake_behavior_witness :
    connect_custom witnessDecrypt 42 1 [AttemptOutcome.received 7] =
      ([2 ^ 1], some (Except.error
        { kind := IoErrorKind.connectionRefused, msg := "bad pubkey" })) :=
  (connect_custom_handshake_behavior witnessDecrypt 42 [] [] 1 0 0
      { kind := IoErrorKind.timedOut, msg := "x" } 7
      { long_pk := 99, eph_pk := 3, resume_token := 5 }).2.2.2.2.1
    (by rfl) (by decide)


/-! ### Session send loop (session.rs, session_send_loop)

The Rust source:
```
let mut frame_no = 0u64;
let mut run_no = 0u64;
let mut to_send = Vec::new();
loop {
    let to_send = {
        to_send.clear();
        to_send.push(infal(recv_tosend.recv()).await);
        let mut timeout = smol::Timer::after(cfg.latency);
        loop {
            let res = async { (&mut timeout).await; true }
                .or(async { to_send.push(infal(recv_tosend.recv()).await); false });
            if res.await || to_send.len() >= 16 { break &to_send; }
        }
    };
    let encoded = FrameEncoder::new(loss_to_u8(cfg.target_loss))
        .encode(measured_loss.load(..), &to_send);
    for (idx, bts) in encoded.iter().enumerate() {
        cfg.send_frame.send(DataFrame {
            frame_no, run_no, run_idx: idx as u8,
            data_shards: to_send.len() as u8,
            parity_shards: (encoded.len() - to_send.len()) as u8,
            high_recv_frame_no: high_recv_frame_no.load(..),
            total_recv_frames: total_recv_frames.load(..),
            body: bts.clone(),
        }).await;
        frame_no += 1;
    }
    run_no += 1;
}
```
The batching round is driven by the timer race: each round is described by
the payload that unblocked the loop, the list of further payloads that
arrived before the latency timer fired, and a snapshot of the atomics read
during the round. The FEC encoder (fec.rs, outside the sources in scope)
is abstracted as a function from (measured_loss, batch) to the list of
coded shard bodies; modelled from the spec, it emits at least one shard
per batch payload (the systematic shards) and at most 255 shards in total
(specification sections 3 and 6), stated as a hypothesis of the theorem.
Payload and shard body types are abstract. -/

structure DataFrame (G : Type) where
  frame_no : ℕ
  run_no : ℕ
  run_idx : ℕ
  data_shards : ℕ
  parity_shards : ℕ
  high_recv_frame_no : ℕ
  total_recv_frames : ℕ
  body : G

/-- One batching round of the send loop: the blocking first payload, the
payloads gathered before the latency timer fired, and the values of the
measured-loss / reverse-path atomics during the round. -/
structure SendRound (B : Type) where
  first : B
  arrivals : List B
  measured_loss : ℕ
  high_recv : ℕ
  total_recv : ℕ

/-- The inner gather loop: push arrivals one at a time, stopping as soon
as 16 payloads are gathered; the end of the arrival list is the timer
firing. -/
def gatherLoop {B : Type} : List B → List B → List B
  | toSend, [] => toSend
  | toSend, a :: rest =>
    if 16 ≤ (toSend ++ [a]).length then toSend ++ [a]
    else gatherLoop (toSend ++ [a]) rest

/-- The `for (idx, bts) in encoded.iter().enumerate()` emission loop:
one DataFrame per shard, frame_no and run_idx incrementing per frame. -/
def framesFor {G : Type} (rn ds ps hr trv : ℕ) : ℕ → ℕ → List G → List (DataFrame G)
  | _, _, [] => []
  | fn, idx, b :: rest =>
    { frame_no := fn, run_no := rn, run_idx := idx, data_shards := ds,
      parity_shards := ps, high_recv_frame_no := hr, total_recv_frames := trv,
      body := b } :: framesFor rn ds ps hr trv (fn + 1) (idx + 1) rest

def roundBatch {B : Type} (r : SendRound B) : List B :=
  gatherLoop [r.first] r.arrivals

def roundEncoded {B G : Type} (encode : ℕ → List B → List G) (r : SendRound B) :
    List G :=
  encode r.measured_loss (roundBatch r)

/-- The DataFrames emitted for one round, starting at frame number fn with
run number rn. -/
def sendRoundFrames {B G : Type} (encode : ℕ → List B → List G) (fn rn : ℕ)
    (r : SendRound B) : List (DataFrame G) :=
  framesFor rn (roundBatch r).length
    ((roundEncoded encode r).length - (roundBatch r).length)
    r.high_recv r.total_recv fn 0 (roundEncoded encode r)

/-- The per-round frame lists of the send loop over a list of rounds. -/
def sessionSendChunks {B G : Type} (encode : ℕ → List B → List G) :
    ℕ → ℕ → List (SendRound B) → List (List (DataFrame G))
  | _, _, [] => []
  | fn, rn, r :: rest =>
    sendRoundFrames encode fn rn r ::
      sessionSendChunks encode (fn + (sendRoundFrames encode fn rn r).length) (rn + 1) rest

/-- All DataFrames emitted by the send loop, in emission order. -/
def session_send_loop {B G : Type} (encode : ℕ → List B → List G)
    (rounds : List (SendRound B)) : List (DataFrame G) :=
  (sessionSendChunks encode 0 0 rounds).flatten

lemma framesFor_length {G : Type} (rn ds ps hr trv : ℕ) :
    ∀ (l : List G) (fn idx : ℕ), (framesFor rn ds ps hr trv fn idx l).length = l.length := by
  intro l
  induction l with
  | nil => intro fn idx; rfl
  | cons b rest ih =>
    intro fn idx
    simp [framesFor, ih]

lemma framesFor_mem {G : Type} (rn ds ps hr trv : ℕ) :
    ∀ (l : List G) (fn idx : ℕ) (f : DataFrame G),
      f ∈ framesFor rn ds ps hr trv fn idx l ->
      f.run_no = rn ∧ f.data_shards = ds ∧ f.parity_shards = ps ∧
      fn ≤ f.frame_no ∧ f.frame_no < fn + l.length := by
  intro l
  induction l with
  | nil =>
    intro fn idx f hf
    simp [framesFor] at hf
  | cons b rest ih =>
    intro fn idx f hf
    rw [framesFor] at hf
    rcases List.mem_cons.mp hf with hhead | htail
    · subst hhead
      refine ⟨rfl, rfl, rfl, le_refl _, ?_⟩
      simp
    · have h2 := ih (fn + 1) (idx + 1) f htail
      refine ⟨h2.1, h2.2.1, h2.2.2.1, by omega, ?_⟩
      have := h2.2.2.2.2
      simp only [List.length_cons]
      omega

lemma framesFor_pairwise {G : Type} (rn ds ps hr trv : ℕ) :
    ∀ (l : List G) (fn idx : ℕ),
      (framesFor rn ds ps hr trv fn idx l).Pairwise
        (fun a b => a.frame_no < b.frame_no) := by
  intro l
  induction l with
  | nil => intro fn idx; exact List.Pairwise.nil
  | cons b rest ih =>
    intro fn idx
    rw [framesFor]
    refine List.Pairwise.cons ?_ (ih (fn + 1) (idx + 1))
    intro g hg
    have h2 := framesFor_mem rn ds ps hr trv rest (fn + 1) (idx + 1) g hg
    have := h2.2.2.2.1
    simp only
    omega

lemma gatherLoop_length {B : Type} :
    ∀ (arrivals toSend : List B), 1 ≤ toSend.length → toSend.length ≤ 15 ->
      1 ≤ (gatherLoop toSend arrivals).length ∧ (gatherLoop toSend arrivals).length ≤ 16 := by
  intro arrivals
  induction arrivals with
  | nil =>
    intro toSend h1 h15
    rw [gatherLoop]
    omega
  | cons a rest ih =>
    intro toSend h1 h15
    rw [gatherLoop]
    by_cases hc : 16 ≤ (toSend ++ [a]).length
    · rw [if_pos hc]
      simp only [List.length_append, List.length_cons, List.length_nil] at hc ⊢
      omega
    · rw [if_neg hc]
      refine ih (toSend ++ [a]) ?_ ?_
      · simp only [List.length_append, List.length_cons, List.length_nil]
        omega
      · simp only [List.length_append, List.length_cons, List.length_nil] at hc ⊢
        omega

lemma roundBatch_length {B : Type} (r : SendRound B) :
    1 ≤ (roundBatch r).length ∧ (roundBatch r).length ≤ 16 := by
  rw [roundBatch]
  refine gatherLoop_length r.arrivals [r.first] ?_ ?_ <;> simp

lemma sendRoundFrames_mem {B G : Type} (encode : ℕ → List B → List G) (fn rn : ℕ)
    (r : SendRound B) (f : DataFrame G) (hf : f ∈ sendRoundFrames encode fn rn r) :
    f.run_no = rn ∧ f.data_shards = (roundBatch r).length ∧
    f.parity_shards = (roundEncoded encode r).length - (roundBatch r).length ∧
    fn ≤ f.frame_no ∧ f.frame_no < fn + (roundEncoded encode r).length := by
  rw [sendRoundFrames] at hf
  exact framesFor_mem _ _ _ _ _ _ _ _ _ hf

lemma sendRoundFrames_length {B G : Type} (encode : ℕ → List B → List G) (fn rn : ℕ)
    (r : SendRound B) :
    (sendRoundFrames encode fn rn r).length = (roundEncoded encode r).length := by
  rw [sendRoundFrames]
  exact framesFor_length _ _ _ _ _ _ _ _

lemma sendRoundFrames_pairwise {B G : Type} (encode : ℕ → List B → List G) (fn rn : ℕ)
    (r : SendRound B) :
    (sendRoundFrames encode fn rn r).Pairwise (fun a b => a.frame_no < b.frame_no) := by
  rw [sendRoundFrames]
  exact framesFor_pairwise _ _ _ _ _ _ _ _

lemma chunks_length {B G : Type} (encode : ℕ → List B → List G) :
    ∀ (rounds : List (SendRound B)) (fn rn : ℕ),
      (sessionSendChunks encode fn rn rounds).length = rounds.length := by
  intro rounds
  induction rounds with
  | nil => intro fn rn; rfl
  | cons r rest ih =>
    intro fn rn
    rw [sessionSendChunks]
    simp [ih]

lemma chunks_flatten_lb {B G : Type} (encode : ℕ → List B → List G) :
    ∀ (rounds : List (SendRound B)) (fn rn : ℕ) (f : DataFrame G),
      f ∈ (sessionSendChunks encode fn rn rounds).flatten → fn ≤ f.frame_no := by
  intro rounds
  induction rounds with
  | nil =>
    intro fn rn f hf
    simp [sessionSendChunks] at hf
  | cons r rest ih =>
    intro fn rn f hf
    rw [sessionSendChunks, List.flatten_cons] at hf
    rcases List.mem_append.mp hf with hhead | htail
    · exact (sendRoundFrames_mem encode fn rn r f hhead).2.2.2.1
    · have := ih (fn + (sendRoundFrames encode fn rn r).length) (rn + 1) f htail
      omega

lemma chunks_flatten_pairwise {B G : Type} (encode : ℕ → List B → List G) :
    ∀ (rounds : List (SendRound B)) (fn rn : ℕ),
      ((sessionSendChunks encode fn rn rounds).flatten).Pairwise
        (fun a b => a.frame_no < b.frame_no) := by
  intro rounds
  induction rounds with
  | nil => intro fn rn; exact List.Pairwise.nil
  | cons r rest ih =>
    intro fn rn
    rw [sessionSendChunks, List.flatten_cons]
    rw [List.pairwise_append]
    refine ⟨sendRoundFrames_pairwise encode fn rn r, ih _ _, ?_⟩
    intro a ha b hb
    have h1 := (sendRoundFrames_mem encode fn rn r a ha).2.2.2.2
    have h2 := chunks_flatten_lb encode rest (fn + (sendRoundFrames encode fn rn r).length)
      (rn + 1) b hb
    have h3 := sendRoundFrames_length encode fn rn r
    omega

lemma chunks_flatten_decompose {B G : Type} (encode : ℕ → List B → List G) :
    ∀ (rounds : List (SendRound B)) (fn rn : ℕ) (f : DataFrame G),
      f ∈ (sessionSendChunks encode fn rn rounds).flatten ->
      ∃ k, ∃ hk : k < rounds.length, ∃ fnk,
        f ∈ sendRoundFrames encode fnk (rn + k) (rounds.get ⟨k, hk⟩) := by
  intro rounds
  induction rounds with
  | nil =>
    intro fn rn f hf
    simp [sessionSendChunks] at hf
  | cons r rest ih =>
    intro fn rn f hf
    rw [sessionSendChunks, List.flatten_cons] at hf
    rcases List.mem_append.mp hf with hhead | htail
    · exact ⟨0, by simp, fn, by simpa using hhead⟩
    · obtain ⟨k, hk, fnk, hmem⟩ := ih _ _ f htail
      refine ⟨k + 1, by simpa using hk, fnk, ?_⟩
      have : rn + 1 + k = rn + (k + 1) := by omega
      rw [this] at hmem
      simpa using hmem

lemma chunks_getD {B G : Type} (encode : ℕ → List B → List G) :
    ∀ (rounds : List (SendRound B)) (fn rn k : ℕ) (hk : k < rounds.length),
      ∃ fnk, (sessionSendChunks encode fn rn rounds).getD k [] =
        sendRoundFrames encode fnk (rn + k) (rounds.get ⟨k, hk⟩) := by
  intro rounds
  induction rounds with
  | nil =>
    intro fn rn k hk
    simp at hk
  | cons r rest ih =>
    intro fn rn k hk
    match k with
    | 0 =>
      refine ⟨fn, ?_⟩
      rw [sessionSendChunks, List.getD_cons_zero]
      rfl
    | k + 1 =>
      obtain ⟨fnk, h⟩ := ih (fn + (sendRoundFrames encode fn rn r).length) (rn + 1) k
        (by simpa using hk)
      refine ⟨fnk, ?_⟩
      rw [sessionSendChunks, List.getD_cons_succ, h]
      have harith : rn + 1 + k = rn + (k + 1) := by omega
      rw [harith]
      rfl

/-- C5: over any execution of the send loop, the frame numbers of the
emitted DataFrames are strictly increasing in emission order; run_no is
incremented exactly once per batch, so the frames of the k-th batch all
carry run_no = k; within one run all frames carry the same (data_shards,
parity_shards), with data_shards equal to the batch size, which lies
between 1 and 16; and the total shard count data_shards + parity_shards of
every frame is at most 255. The FEC encoder is abstract, constrained by
the specification contract that it emits at least one shard per batch
payload and at most 255 shards (hypothesis Henc). -/
theorem session_send_loop_frame_accounting {B G : Type}
    (encode : ℕ → List B → List G)
    (Henc : ∀ ml (b : List B), b.length ≤ 16 →
      b.length ≤ (encode ml b).length ∧ (encode ml b).length ≤ 255)
    (rounds : List (SendRound B)) :
    (session_send_loop encode rounds).Pairwise (fun a b => a.frame_no < b.frame_no) ∧
    (sessionSendChunks encode 0 0 rounds).length = rounds.length ∧
    (∀ k, ∀ hk : k < rounds.length,
      ∀ f ∈ (sessionSendChunks encode 0 0 rounds).getD k [],
        f.run_no = k ∧ f.data_shards = (roundBatch (rounds.get ⟨k, hk⟩)).length) ∧
    (∀ f ∈ session_send_loop encode rounds,
      1 ≤ f.data_shards ∧ f.data_shards ≤ 16 ∧
      f.data_shards + f.parity_shards ≤ 255) ∧
    (∀ f g, f ∈ session_send_loop encode rounds →
      g ∈ session_send_loop encode rounds → f.run_no = g.run_no →
      f.data_shards = g.data_shards ∧ f.parity_shards = g.parity_shards) := by
  refine ⟨chunks_flatten_pairwise encode rounds 0 0, chunks_length encode rounds 0 0,
    ?_, ?_, ?_⟩
  · intro k hk f hf
    obtain ⟨fnk, heq⟩ := chunks_getD encode rounds 0 0 k hk
    rw [heq] at hf
    have h := sendRoundFrames_mem encode fnk (0 + k) _ f hf
    have hr := h.1
    exact ⟨by omega, h.2.1⟩
  · intro f hf
    obtain ⟨k, hk, fnk, hmem⟩ := chunks_flatten_decompose encode rounds 0 0 f hf
    have h := sendRoundFrames_mem encode fnk (0 + k) _ f hmem
    have hb := roundBatch_length (rounds.get ⟨k, hk⟩)
    have he := Henc (rounds.get ⟨k, hk⟩).measured_loss
      (roundBatch (rounds.get ⟨k, hk⟩)) hb.2
    have hcast : roundEncoded encode (rounds.get ⟨k, hk⟩) =
        encode (rounds.get ⟨k, hk⟩).measured_loss (roundBatch (rounds.get ⟨k, hk⟩)) := rfl
    refine ⟨?_, ?_, ?_⟩
    · rw [h.2.1]; exact hb.1
    · rw [h.2.1]; exact hb.2
    · have hps := h.2.2.1
      rw [hcast] at hps
      rw [h.2.1, hps]
      omega
  · intro f g hf hg hrun
    obtain ⟨k, hk, fnk, hmemf⟩ := chunks_flatten_decompose encode rounds 0 0 f hf
    obtain ⟨j, hj, fnj, hmemg⟩ := chunks_flatten_decompose encode rounds 0 0 g hg
    have h1 := sendRoundFrames_mem encode fnk (0 + k) _ f hmemf
    have h2 := sendRoundFrames_mem encode fnj (0 + j) _ g hmemg
    have hkj : k = j := by
      have e1 := h1.1
      have e2 := h2.1
      omega
    subst hkj
    constructor
    · rw [h1.2.1, h2.2.1]
    · rw [h1.2.2.1, h2.2.2.1]

/-- Identity encoder (no parity shards) used to instantiate the C5
theorem; it satisfies the spec contract for batches of at most 16. -/
def idEncode : ℕ → List ℕ → List ℕ := fun _ b => b

def witnessRound : SendRound ℕ :=
  { first := 5, arrivals := [], measured_loss := 0, high_recv := 0, total_recv := 0 }

theorem session_send_loop_frame_accounting_witness :
    (session_send_loop idEncode [witnessRound]).Pairwise
      (fun a b => a.frame_no < b.frame_no) ∧
    (sessionSendChunks idEncode 0 0 [witnessRound]).length = [witnessRound].length ∧
    (∀ k, ∀ hk : k < [witnessRound].length,
      ∀ f ∈ (sessionSendChunks idEncode 0 0 [witnessRound]).getD k [],
        f.run_no = k ∧ f.data_shards = (roundBatch ([witnessRound].get ⟨k, hk⟩)).length) ∧
    (∀ f ∈ session_send_loop idEncode [witnessRound],
      1 ≤ f.data_shards ∧ f.data_shards ≤ 16 ∧
      f.data_shards + f.parity_shards ≤ 255) ∧
    (∀ f g, f ∈ session_send_loop idEncode [witnessRound] →
      g ∈ session_send_loop idEncode [witnessRound] → f.run_no = g.run_no →
      f.data_shards = g.data_shards ∧ f.parity_shards = g.parity_shards) :=
  session_send_loop_frame_accounting idEncode
    (fun _ b hb => ⟨Nat.le_refl _, by simp only [idEncode]; omega⟩) [witnessRound]

end Geph4
